import Mathlib

set_option synthInstance.maxHeartbeats 1000000
set_option maxHeartbeats 1000000

/-!
Shallow embedding of the feed-normalization and pagination core of the
LinkedIn activity scraper (src/linkedin_activity_fetcher.py and
src/test/linkedin_parser_enhanced.py).

Python dictionaries are modelled as records whose fields carry the value the
code reads via `.get(key, default)`: an absent key is represented by the
Python default the code substitutes for it (`''` for strings, `0` for widths
and heights, an empty record for nested dictionaries, `[]` for lists).
Fallible operations return `Option`; the functions keep the source's names.
-/

/-- A LinkedIn text view model: a dictionary with a `text` field. -/
structure TextVM where
  text : String := ""
deriving DecidableEq, Repr

/-- One size variant of a vector image (`artifacts` list entry):
`width` and `fileIdentifyingUrlPathSegment` as read by `extract_image_urls`. -/
structure Artifact where
  width : Nat := 0
  fileIdentifyingUrlPathSegment : String := ""
deriving DecidableEq, Repr

/-- A `vectorImage` dictionary: `rootUrl` plus the artifact list. -/
structure VectorImage where
  rootUrl : String := ""
  artifacts : List Artifact := []
deriving DecidableEq, Repr

/-- One entry of an image's `attributes` list; the code only reads
`attributes[0].get('detailData', {}).get('vectorImage', {})`. -/
structure ImageAttr where
  vectorImage : VectorImage := {}
deriving DecidableEq, Repr

/-- One entry of `imageComponent.images`. -/
structure PostImage where
  attributes : List ImageAttr := []
deriving DecidableEq, Repr

/-- The `imageComponent` dictionary of a post's `content`. -/
structure ImageComponent where
  images : List PostImage := []
deriving DecidableEq, Repr

/-- One entry of a stream's `streamingLocations`; the code reads
`streamingLocations[0].get('url', '')`. -/
structure StreamLoc where
  url : String := ""
deriving DecidableEq, Repr

/-- One progressive stream descriptor of a `VideoPlayMetadata` entity. -/
structure VidStream where
  width : Nat := 0
  height : Nat := 0
  streamingLocations : List StreamLoc := []
deriving DecidableEq, Repr

/-- The `linkedInVideoComponent` dictionary: its `*videoPlayMetadata`
reference URN (empty string when absent). -/
structure VideoComponent where
  videoPlayMetadata : String := ""
deriving DecidableEq, Repr

/-- The `content` dictionary of an Update entity. -/
structure Content where
  imageComponent : ImageComponent := {}
  linkedInVideoComponent : VideoComponent := {}
deriving DecidableEq, Repr

/-- One entry of the actor image's `attributes` list; the code reads
`attributes[0].detailData.nonEntityProfilePicture.*profile`. -/
structure ActorAttr where
  profile : String := ""
deriving DecidableEq, Repr

/-- The `actor` dictionary of an Update entity. -/
structure Actor where
  name : TextVM := {}
  description : TextVM := {}
  subDescription : TextVM := {}
  actionTarget : String := ""
  image_attributes : List ActorAttr := []
deriving DecidableEq, Repr

/-- The `metadata` dictionary of an Update entity. -/
structure PostMetadata where
  backendUrn : String := ""
  shareUrn : String := ""
deriving DecidableEq, Repr

/-- The `commentary` dictionary of an Update entity. -/
structure Commentary where
  text : TextVM := {}
deriving DecidableEq, Repr

/-- The `socialContent` dictionary of an Update entity. -/
structure SocialContent where
  shareUrl : String := ""
deriving DecidableEq, Repr

/-- One entry of a raw page's flat `included` list. Entities are duck-typed
dictionaries in the source, so a single record carries every field any of
the extraction routines reads; `dtype` models the `$type` discriminator.
`author_repr`, `timestamp_repr` and `commentary_repr` are the Python string
renderings of the `author`, `timestamp` and `commentary` values that
`_extract_post_id` concatenates for its fallback hash. -/
structure Entity where
  dtype : String := ""
  entityUrn : String := ""
  metadata : PostMetadata := {}
  commentary : Commentary := {}
  socialContent : SocialContent := {}
  actor : Actor := {}
  content : Content := {}
  progressiveStreams : List VidStream := []
  activityUrn : String := ""
  updateUrn : String := ""
  postUrn : String := ""
  author_repr : String := ""
  timestamp_repr : String := ""
  commentary_repr : String := ""
deriving DecidableEq, Repr

/-- One raw API response body: the ordered `*elements` reference list, the
flat `included` entity list, and the nested `paginationToken` (empty string
when the token is absent from the metadata path). -/
structure RawPage where
  elements : List String := []
  included : List Entity := []
  paginationToken : String := ""
deriving DecidableEq, Repr

/-- One post dictionary produced by `extract_posts_from_response`. -/
structure PostInfo where
  entity_urn : String := ""
  activity_urn : String := ""
  share_urn : String := ""
  post_text : String := ""
  post_url : String := ""
  author_profile_urn : String := ""
  author_name : String := ""
  author_headline : String := ""
  author_profile_url : String := ""
  video_url_640p : String := ""
  image_urls : List String := []
  post_order : Nat := 0
deriving DecidableEq, Repr

/-- The `$type` value the fetcher filters `included` entries by. -/
def UPDATE_TYPE : String := "com.linkedin.voyager.dash.feed.Update"

/-- Python's `max(l, key=f)` on the non-empty list `a :: l`: it keeps the
current maximum and replaces it only on a strictly greater key, so ties are
broken in favour of the first-encountered element. -/
def pyMaxBy (f : α → Nat) : α → List α → α
  | best, [] => best
  | best, a :: rest => pyMaxBy f (if f a > f best then a else best) rest

/-- Python's `a or b` on strings: `a` unless it is empty. -/
def pyOr (a b : String) : String := if a = "" then b else a

/-- `extract_pagination_token` (src/linkedin_activity_fetcher.py:381):
returns the nested `paginationToken`, or `none` when it is absent/empty. -/
def extract_pagination_token (pg : RawPage) : Option String :=
  if pg.paginationToken = "" then none else some pg.paginationToken

/-- The per-image body of the loop in `extract_image_urls`
(src/linkedin_activity_fetcher.py:612-641): take the first attribute's
`vectorImage`; skip the image when the root URL, the artifact list or the
chosen artifact's path fragment is missing; otherwise pick the artifact
with the largest `width` and append its fragment to the root URL. -/
def extract_one_image (img : PostImage) : Option String :=
  match img.attributes with
  | [] => none
  | attr :: _ =>
    let vi := attr.vectorImage
    if vi.rootUrl = "" then none
    else
      match vi.artifacts with
      | [] => none
      | a :: rest =>
        let best := pyMaxBy (fun x => x.width) a rest
        if best.fileIdentifyingUrlPathSegment = "" then none
        else some (vi.rootUrl ++ best.fileIdentifyingUrlPathSegment)

/-- `extract_image_urls` (src/linkedin_activity_fetcher.py:590): resolve
every image of the post's `imageComponent` independently, in order,
dropping images whose fields cannot be resolved. -/
def extract_image_urls (item : Entity) : List String :=
  item.content.imageComponent.images.filterMap extract_one_image

/-- The first streaming location's URL of a stream, with the Python
defaults: empty string when the location list is empty or the URL missing. -/
def stream_url (s : VidStream) : String :=
  match s.streamingLocations with
  | [] => ""
  | loc :: _ => loc.url

/-- One iteration of the stream scan in `extract_video_url`
(src/linkedin_activity_fetcher.py:555-578) over the accumulator
`(video_url_640p, video_url_720p, video_url_fallback)`. -/
def stream_step (acc : String × String × String) (s : VidStream) :
    String × String × String :=
  match s.streamingLocations with
  | [] => acc
  | loc :: _ =>
    if loc.url = "" then acc
    else
      let fb := if acc.2.2 = "" then loc.url else acc.2.2
      let u640 := if s.width = 640 ∨ s.height = 640 then loc.url else acc.1
      let u720 := if s.width = 720 ∨ s.height = 720 then loc.url else acc.2.1
      (u640, u720, fb)

/-- The `*videoPlayMetadata` reference URN of a post's video component. -/
def video_ref (item : Entity) : String :=
  item.content.linkedInVideoComponent.videoPlayMetadata

/-- Steps 3-4 of `extract_video_url`
(src/linkedin_activity_fetcher.py:544-584): scan the referenced entity's
`progressiveStreams` collecting the last 640p URL, the last 720p URL and
the first URL of any stream, then return them in the preference order
selected by `prefer_640p`; an empty stream list yields the empty string. -/
def choose_stream_url (prefer_640p : Bool) : List VidStream → String
  | [] => ""
  | s :: rest =>
    let r := (s :: rest).foldl stream_step ("", "", "")
    if prefer_640p then pyOr r.1 (pyOr r.2.1 r.2.2)
    else pyOr r.2.1 (pyOr r.1 r.2.2)

/-- `extract_video_url` (src/linkedin_activity_fetcher.py:513): follow the
`*videoPlayMetadata` reference into `included`, scan the referenced
entity's `progressiveStreams`, and return 640p before 720p before the
first stream with any URL; every absence yields the empty string. -/
def extract_video_url (item : Entity) (included : List Entity)
    (prefer_640p : Bool) : String :=
  if video_ref item = "" then ""
  else
    match included.find? (fun e => e.entityUrn == video_ref item) with
    | none => ""
    | some vm => choose_stream_url prefer_640p vm.progressiveStreams

/-- The `post_lookup` dictionary built by `extract_posts_from_response`
(src/linkedin_activity_fetcher.py:679-684): insert, in list order, every
entity whose `$type` is the Update type and whose `entityUrn` is
non-empty; a later insertion with the same key overwrites an earlier one. -/
def post_lookup (included : List Entity) : String → Option Entity :=
  included.foldl
    (fun m item =>
      if item.dtype = UPDATE_TYPE ∧ item.entityUrn ≠ "" then
        fun k => if k = item.entityUrn then some item else m k
      else m)
    (fun _ => none)

/-- The `post_info` dictionary built for one resolved Update
(src/linkedin_activity_fetcher.py:697-754); `idx` is the 1-based position
of the post's URN in the `*elements` list. -/
def build_post_info (item : Entity) (included : List Entity) (idx : Nat) :
    PostInfo :=
  { entity_urn := item.entityUrn
    activity_urn := item.metadata.backendUrn
    share_urn := item.metadata.shareUrn
    post_text := item.commentary.text.text
    post_url := item.socialContent.shareUrl
    author_profile_urn :=
      match item.actor.image_attributes with
      | [] => ""
      | attr :: _ => attr.profile
    author_name := item.actor.name.text
    author_headline := item.actor.description.text
    author_profile_url := item.actor.actionTarget
    video_url_640p := extract_video_url item included true
    image_urls := extract_image_urls item
    post_order := idx }

/-- One `*elements` iteration of `extract_posts_from_response`
(src/linkedin_activity_fetcher.py:689-758): resolve the URN through the
lookup (a miss yields nothing), build the post dictionary, and emit it
only when it has post text or a post URL. -/
def assemble_post (lookup : String → Option Entity) (included : List Entity)
    (idx : Nat) (urn : String) : Option PostInfo :=
  match lookup urn with
  | none => none
  | some item =>
    let p := build_post_info item included idx
    if p.post_text ≠ "" ∨ p.post_url ≠ "" then some p else none

/-- The `for idx, element_urn in enumerate(elements, 1)` loop of
`extract_posts_from_response`: walk the reference list in order, keeping
the emitted posts in encounter order. -/
def extract_loop (lookup : String → Option Entity) (included : List Entity) :
    Nat → List String → List PostInfo
  | _, [] => []
  | idx, urn :: rest =>
    match assemble_post lookup included idx urn with
    | some p => p :: extract_loop lookup included (idx + 1) rest
    | none => extract_loop lookup included (idx + 1) rest

/-- `extract_posts_from_response` (src/linkedin_activity_fetcher.py:649):
empty reference list or empty entity list yields no posts; otherwise build
the lookup and walk the reference list from index 1. -/
def extract_posts_from_response (pg : RawPage) : List PostInfo :=
  if pg.elements = [] then []
  else if pg.included = [] then []
  else extract_loop (post_lookup pg.included) pg.included 1 pg.elements

/-- The renumbering applied by `process_posts_from_files`
(src/linkedin_activity_fetcher.py:1162-1166): the global post number is
the range start plus the within-page `post_order`. -/
def renumber (range_start : Nat) (p : PostInfo) : PostInfo :=
  { p with post_order := range_start + p.post_order }

/-- `process_posts_from_files` (src/linkedin_activity_fetcher.py:1112):
each saved file is modelled by its parsed range start and raw page; the
per-file loop extracts the page's posts and renumbers them globally,
accumulating across files in order. File-system persistence is dropped. -/
def process_posts_from_files : List (Nat × RawPage) → List PostInfo
  | [] => []
  | (s, pg) :: rest =>
    (extract_posts_from_response pg).map (renumber s) ++
      process_posts_from_files rest


/-- The run-level outcome of a scrape: the returned success flag and error
of `run_scrape` together with the number of fetched ranges and the posts
extracted from them. -/
structure RunResult where
  success : Bool
  pagesCompleted : Nat
  posts : List PostInfo
  failureReason : Option String
deriving DecidableEq, Repr

/-- The range-fetching loop of `run_scrape`
(src/linkedin_activity_fetcher.py:1357-1416), returning the list of
`(range_start, page)` pairs saved to disk. `fetch` is the injected
collaborator (`fetch_profile_activity`): it receives the range start, the
count and the pagination token and returns the page or `none` on failure.
The loop index starts at 1; the first range is fetched without a token;
a later range first requires the token from the previous response (absence
breaks the loop), and after each successful fetch the loop breaks when the
new response carries no token while ranges remain. -/
def fetch_loop (fetch : Nat → Nat → Option String → Option RawPage) :
    List (Nat × Nat) → Nat → Option String → List (Nat × RawPage)
  | [], _, _ => []
  | (s, e) :: rest, idx, token =>
    if idx ≠ 1 ∧ token = none then []
    else
      match fetch s (e - s) (if idx = 1 then none else token) with
      | none => []
      | some pg =>
        let token' := extract_pagination_token pg
        if token' = none ∧ rest ≠ [] then [(s, pg)]
        else (s, pg) :: fetch_loop fetch rest (idx + 1) token'

/-- `run_scrape` (src/linkedin_activity_fetcher.py:1295-1448) from the
point where the ranges are known: run the fetch loop, extract the posts
from every saved page, and return the outcome the code returns — the
success flag is `true` whenever the loop itself finishes, whether or not
every range was fetched; `pagesCompleted` is the number of saved ranges. -/
def run_scrape (fetch : Nat → Nat → Option String → Option RawPage)
    (ranges : List (Nat × Nat)) : RunResult :=
  if ranges = [] then
    { success := false, pagesCompleted := 0, posts := []
      failureReason := some "Failed to parse target range" }
  else
    let saved := fetch_loop fetch ranges 1 none
    { success := true, pagesCompleted := saved.length
      posts := process_posts_from_files saved, failureReason := none }

/-- Python's `sep in s` for a non-empty separator, via `splitOn`: the
separator occurs in `s` exactly when the split has more than one part. -/
def py_contains (sep s : String) : Bool := (s.splitOn sep).length ≠ 1

/-- Python's `s.split(sep)[-1]`: the substring after the last occurrence
of the separator (the whole string when the separator does not occur). -/
def py_split_last (sep s : String) : String := (s.splitOn sep).getLastD s

/-- `_extract_post_id` (src/test/linkedin_parser_enhanced.py:247): prefer
the activity-scoped suffix of `entityUrn`, then its last `:`-component;
then the activity suffix of `activityUrn`, `updateUrn` or `postUrn`; as a
last resort the stringified hash of the `author`, `timestamp` and
`commentary` representations. `hashFn` models Python's `hash`, which is a
fixed function within one process/run. -/
def extract_post_id (hashFn : String → Int) (e : Entity) : String :=
  if e.entityUrn ≠ "" then
    if py_contains ":activity:" e.entityUrn then
      py_split_last ":activity:" e.entityUrn
    else if py_contains "urn:li:activity:" e.entityUrn then
      py_split_last ":activity:" e.entityUrn
    else py_split_last ":" e.entityUrn
  else if e.activityUrn ≠ "" ∧ py_contains ":activity:" e.activityUrn then
    py_split_last ":activity:" e.activityUrn
  else if e.updateUrn ≠ "" ∧ py_contains ":activity:" e.updateUrn then
    py_split_last ":activity:" e.updateUrn
  else if e.postUrn ≠ "" ∧ py_contains ":activity:" e.postUrn then
    py_split_last ":activity:" e.postUrn
  else
    toString (hashFn (e.author_repr ++ "_" ++ e.timestamp_repr ++ "_" ++
      e.commentary_repr))

/-- One post record of the enhanced parser (`PostInfo` dataclass of
src/test/linkedin_parser_enhanced.py); `post_text` is the empty string for
Python `None`. The `media` list is omitted: media extraction plays no role
in identity derivation or in the emission decision. -/
structure EPost where
  post_id : String := ""
  author_name : String := ""
  post_text : String := ""
  timestamp : String := ""
  post_url : String := ""
deriving DecidableEq, Repr

/-- The post text the enhanced parser settles on: the commentary text when
present, otherwise the `_find_text_anywhere` fallback (the `findText`
parameter; empty string for Python `None`). -/
def enhanced_post_text (findText : Entity → Option String) (e : Entity) :
    String :=
  if e.commentary.text.text = "" then (findText e).getD ""
  else e.commentary.text.text

/-- The `PostInfo` record `_parse_single_post_enhanced` fills for one
entity. -/
def build_epost (hashFn : String → Int)
    (findText : Entity → Option String) (e : Entity) : EPost :=
  { post_id := extract_post_id hashFn e
    author_name := e.actor.name.text
    post_text := enhanced_post_text findText e
    timestamp := e.actor.subDescription.text
    post_url := e.socialContent.shareUrl }

/-- `_parse_single_post_enhanced` (src/test/linkedin_parser_enhanced.py:269)
with the dedup state passed explicitly: compute the post id; return nothing
when it was already seen, otherwise mark it seen, fill the record, and emit
the record only when its text, stripped, is longer than 10 characters. -/
def parse_single_post_enhanced (hashFn : String → Int)
    (findText : Entity → Option String) (seen : List String) (e : Entity) :
    Option EPost × List String :=
  if extract_post_id hashFn e ∈ seen then (none, seen)
  else if enhanced_post_text findText e ≠ "" ∧
      (enhanced_post_text findText e).trim.length > 10 then
    (some (build_epost hashFn findText e), extract_post_id hashFn e :: seen)
  else (none, extract_post_id hashFn e :: seen)

/-- The Update-entity stream of one aggregation run of the enhanced parser:
`_search_for_posts_recursive_enhanced` visits the Update-typed entities in
encounter order and feeds each through `_parse_single_post_enhanced`,
threading `seen_post_ids`. The page/run is modelled by that ordered entity
list. -/
def parse_posts_from_list (hashFn : String → Int)
    (findText : Entity → Option String) :
    List String → List Entity → List EPost × List String
  | seen, [] => ([], seen)
  | seen, e :: rest =>
    match parse_single_post_enhanced hashFn findText seen e with
    | (some p, seen') =>
      let r := parse_posts_from_list hashFn findText seen' rest
      (p :: r.1, r.2)
    | (none, seen') => parse_posts_from_list hashFn findText seen' rest

/-- 1-based enumeration, as produced by Python's `enumerate(l, n)`. -/
def enumFrom : Nat → List α → List (Nat × α)
  | _, [] => []
  | n, a :: t => (n, a) :: enumFrom (n + 1) t

-- Concrete inputs used by the witness and counterexample theorems below.

/-- A minimal Update entity with the given URN and a fixed commentary. -/
def simpleUpdate (u : String) : Entity :=
  { dtype := UPDATE_TYPE, entityUrn := u
    commentary := { text := { text := "hello world" } } }

/-- A page whose middle reference has no matching entity in the index. -/
def c1page : RawPage :=
  { elements := ["ua", "ux", "ub"]
    included := [simpleUpdate "ua", simpleUpdate "ub"] }

/-- A concrete artifact. -/
def c6art (w : Nat) (seg : String) : Artifact :=
  { width := w, fileIdentifyingUrlPathSegment := seg }

/-- A concrete image attribute with artifacts of widths 320, 640, 720. -/
def c6attr : ImageAttr :=
  { vectorImage :=
      { rootUrl := "base/"
        artifacts := [c6art 320 "w320", c6art 640 "w640", c6art 720 "w720"] } }

/-- A concrete post image holding `c6attr`. -/
def c6img : PostImage := { attributes := [c6attr] }

/-- A concrete hash function standing in for Python `hash` in witnesses. -/
def c9hash (s : String) : Int := s.length

/-- A concrete entity with no usable URN, forcing the fallback identity. -/
def c9ent (who : String) : Entity :=
  { author_repr := "auth", timestamp_repr := "ts", commentary_repr := "comm"
    actor := { name := { text := who } } }

/-- The 640p match of `extract_video_url`: width or height equals 640. -/
def is640 (s : VidStream) : Prop := s.width = 640 ∨ s.height = 640

/-- The 720p match of `extract_video_url`: width or height equals 720. -/
def is720 (s : VidStream) : Prop := s.width = 720 ∨ s.height = 720

/-- The URL of the first stream carrying any URL (the code's
`video_url_fallback`), or the empty string when there is none. -/
def first_valid_url (streams : List VidStream) : String :=
  ((streams.find? (fun s => stream_url s != "")).map stream_url).getD ""

/-- A concrete progressive stream with one streaming location. -/
def c7stream (w h : Nat) (u : String) : VidStream :=
  { width := w, height := h, streamingLocations := [{ url := u }] }

/-- A concrete playback-metadata entity carrying the given streams. -/
def c7vm (streams : List VidStream) : Entity :=
  { entityUrn := "vidmeta", progressiveStreams := streams }

/-- A concrete post entity referencing the `vidmeta` playback entity. -/
def c7item : Entity :=
  { content := { linkedInVideoComponent := { videoPlayMetadata := "vidmeta" } } }

instance is640_decidable (s : VidStream) : Decidable (is640 s) :=
  inferInstanceAs (Decidable (s.width = 640 ∨ s.height = 640))

instance is720_decidable (s : VidStream) : Decidable (is720 s) :=
  inferInstanceAs (Decidable (s.width = 720 ∨ s.height = 720))

/-- A concrete first page carrying a pagination token. -/
def c3page1 : RawPage :=
  { elements := ["u1"], included := [simpleUpdate "u1"]
    paginationToken := "tok" }

/-- A fetch collaborator that succeeds on the range starting at 0 and
fails on every other range. -/
def c3fetch : Nat → Nat → Option String → Option RawPage :=
  fun s _ _ => if s = 0 then some c3page1 else none

/-- Three contiguous ranges covering 0-60. -/
def c3ranges : List (Nat × Nat) := [(0, 20), (20, 40), (40, 60)]

/-- A concrete first page carrying no pagination token. -/
def c4page1 : RawPage :=
  { elements := ["v1"], included := [simpleUpdate "v1"] }

/-- A fetch collaborator returning the token-less page for range 0. -/
def c4fetch : Nat → Nat → Option String → Option RawPage :=
  fun s _ _ => if s = 0 then some c4page1 else none

/-- An Update entity with neither commentary text nor a share URL: it
resolves but is skipped by the acceptance rule. -/
def c5skip : Entity := { dtype := UPDATE_TYPE, entityUrn := "s1" }

/-- A page whose first reference resolves to a skipped entity. -/
def c5page : RawPage :=
  { elements := ["s1", "s2"], included := [c5skip, simpleUpdate "s2"] }

/-- Twenty distinct reference URNs. -/
def c5urns : List String := (List.range 20).map (fun i => "p" ++ Nat.repr i)

/-- A page on which every reference emits a post. -/
def c5goodpage : RawPage :=
  { elements := c5urns, included := c5urns.map simpleUpdate }

/-- The predicate a key `urn` matches in the `post_lookup` dictionary. -/
def lookup_pred (urn : String) (e : Entity) : Bool :=
  decide (e.dtype = UPDATE_TYPE ∧ e.entityUrn = urn ∧ e.entityUrn ≠ "")

lemma find?_append_cases (p : α → Bool) (l1 l2 : List α) :
    (l1 ++ l2).find? p =
      match l1.find? p with
      | some a => some a
      | none => l2.find? p := by
  induction l1 with
  | nil => simp
  | cons x t ih =>
    by_cases h : p x
    · simp [List.find?, h]
    · simp only [List.cons_append, List.find?]
      rw [Bool.of_not_eq_true h]
      exact ih

lemma head?_filter (p : α → Bool) (l : List α) :
    (l.filter p).head? = l.find? p := by
  induction l with
  | nil => rfl
  | cons x t ih =>
    by_cases h : p x
    · simp [List.filter, List.find?, h]
    · simp only [List.filter, List.find?, Bool.of_not_eq_true h]
      exact ih

lemma post_lookup_foldl_aux (l : List Entity) :
    ∀ (m : String → Option Entity) (urn : String),
      (l.foldl
        (fun m item =>
          if item.dtype = UPDATE_TYPE ∧ item.entityUrn ≠ "" then
            fun k => if k = item.entityUrn then some item else m k
          else m) m) urn =
        match l.reverse.find? (lookup_pred urn) with
        | some e => some e
        | none => m urn := by
  induction l with
  | nil => intro m urn; rfl
  | cons x t ih =>
    intro m urn
    rw [List.foldl_cons, ih, List.reverse_cons, find?_append_cases]
    rcases hf : t.reverse.find? (lookup_pred urn) with _ | e
    · simp only [List.find?]
      by_cases hp : lookup_pred urn x = true
      · rw [hp]
        obtain ⟨h1, h2, h3⟩ := of_decide_eq_true hp
        simp [h1, h3, h2.symm]
      · rw [Bool.of_not_eq_true hp]
        by_cases hc : x.dtype = UPDATE_TYPE ∧ x.entityUrn ≠ ""
        · have hu : ¬ urn = x.entityUrn := by
            intro h
            exact hp (decide_eq_true ⟨hc.1, h.symm, hc.2⟩)
          simp [hc, hu]
        · simp [hc]
    · rfl

lemma post_lookup_eq_find_reverse (included : List Entity) (urn : String) :
    post_lookup included urn = included.reverse.find? (lookup_pred urn) := by
  rw [post_lookup, post_lookup_foldl_aux]
  rcases h : included.reverse.find? (lookup_pred urn) with _ | e <;> simp

/-- C10 — The entity index built by `extract_posts_from_response` contains
exactly the entities whose `$type` is the Update type and whose
`entityUrn` is non-empty, and when several such entities share one URN the
index maps that URN to the last of them in the `included` list (later
insertions overwrite earlier ones). -/
theorem c10_entity_index_last_wins (included : List Entity) (urn : String) :
    post_lookup included urn =
      (included.filter (lookup_pred urn)).getLast?
    ∧ ((post_lookup included urn).isSome ↔
        ∃ e ∈ included, e.dtype = UPDATE_TYPE ∧ e.entityUrn = urn ∧ urn ≠ "") := by
  constructor
  · rw [post_lookup_eq_find_reverse, List.getLast?_eq_head?_reverse,
      ← List.filter_reverse, head?_filter]
  · rw [post_lookup_eq_find_reverse]
    rw [List.find?_isSome]
    constructor
    · rintro ⟨e, he, hp⟩
      obtain ⟨h1, h2, h3⟩ := of_decide_eq_true hp
      exact ⟨e, List.mem_reverse.mp he, h1, h2, h2 ▸ h3⟩
    · rintro ⟨e, he, h1, h2, h3⟩
      refine ⟨e, List.mem_reverse.mpr he, decide_eq_true ⟨h1, h2, ?_⟩⟩
      rw [h2]; exact h3

lemma extract_loop_eq_filterMap (lookup : String → Option Entity)
    (included : List Entity) :
    ∀ (l : List String) (idx : Nat),
      extract_loop lookup included idx l =
        (enumFrom idx l).filterMap
          (fun p => assemble_post lookup included p.1 p.2) := by
  intro l
  induction l with
  | nil => intro idx; rfl
  | cons urn rest ih =>
    intro idx
    rw [extract_loop, enumFrom, List.filterMap_cons]
    rcases h : assemble_post lookup included idx urn with _ | p <;>
      simp [h, ih]

lemma enumFrom_get? : ∀ (l : List α) (n i : Nat),
    (enumFrom n l).get? i = (l.get? i).map (fun a => (n + i, a)) := by
  intro l
  induction l with
  | nil => intro n i; simp [enumFrom]
  | cons a t ih =>
    intro n i
    cases i with
    | zero => simp [enumFrom]
    | succ j =>
      rw [enumFrom]
      simp only [List.get?_cons_succ]
      rw [ih (n + 1) j]
      have : n + 1 + j = n + (j + 1) := by omega
      rw [this]

lemma filterMap_get?_exists (f : α → Option β) :
    ∀ (l : List α) (j : Nat) (b : α) (q : β),
      l.get? j = some b → f b = some q →
      ∃ m, (l.filterMap f).get? m = some q := by
  intro l
  induction l with
  | nil => intro j b q h; simp at h
  | cons x t ih =>
    intro j b q hj hq
    cases j with
    | zero =>
      simp only [List.get?_cons_zero, Option.some_inj] at hj
      subst hj
      refine ⟨0, ?_⟩
      rw [List.filterMap_cons, hq]
      rfl
    | succ j' =>
      simp only [List.get?_cons_succ] at hj
      obtain ⟨m, hm⟩ := ih j' b q hj hq
      rw [List.filterMap_cons]
      rcases hx : f x with _ | r
      · exact ⟨m, hm⟩
      · exact ⟨m + 1, hm⟩

lemma filterMap_order_preserving (f : α → Option β) :
    ∀ (l : List α) (i j : Nat) (a b : α) (p q : β),
      i < j → l.get? i = some a → l.get? j = some b →
      f a = some p → f b = some q →
      ∃ k m, k < m ∧ (l.filterMap f).get? k = some p ∧
        (l.filterMap f).get? m = some q := by
  intro l
  induction l with
  | nil => intro i j a b p q _ h; simp at h
  | cons x t ih =>
    intro i j a b p q hij hi hj hp hq
    cases i with
    | zero =>
      simp only [List.get?_cons_zero, Option.some_inj] at hi
      subst hi
      cases j with
      | zero => omega
      | succ j' =>
        simp only [List.get?_cons_succ] at hj
        obtain ⟨m, hm⟩ := filterMap_get?_exists f t j' b q hj hq
        refine ⟨0, m + 1, by omega, ?_, ?_⟩
        · rw [List.filterMap_cons, hp]; rfl
        · rw [List.filterMap_cons, hp]
          simpa using hm
    | succ i' =>
      cases j with
      | zero => omega
      | succ j' =>
        simp only [List.get?_cons_succ] at hi hj
        obtain ⟨k, m, hkm, hk, hm⟩ :=
          ih i' j' a b p q (by omega) hi hj hp hq
        rw [List.filterMap_cons]
        rcases hx : f x with _ | r
        · exact ⟨k, m, hkm, hk, hm⟩
        · exact ⟨k + 1, m + 1, by omega, by simpa using hk, by simpa using hm⟩

/-- C1 — For a page whose `*elements` reference list and `included` entity
list are both present, the extracted posts follow the reference-list
order: of two emitted posts, the one whose URN sits earlier in
`*elements` appears earlier in the output; and a reference URN with no
matching entity in the index is skipped while the rest of the page is
still processed. -/
theorem c1_reference_list_order (pg : RawPage) (i j : Nat)
    (urnI urnJ : String) (p q : PostInfo)
    (hel : pg.elements ≠ []) (hinc : pg.included ≠ [])
    (hij : i < j)
    (hi : pg.elements.get? i = some urnI)
    (hj : pg.elements.get? j = some urnJ)
    (hp : assemble_post (post_lookup pg.included) pg.included (i + 1) urnI =
      some p)
    (hq : assemble_post (post_lookup pg.included) pg.included (j + 1) urnJ =
      some q) :
    (∃ k m, k < m ∧
      (extract_posts_from_response pg).get? k = some p ∧
      (extract_posts_from_response pg).get? m = some q) ∧
    (∀ (lookup : String → Option Entity) (inc : List Entity) (idx : Nat)
       (urn : String) (rest : List String), lookup urn = none →
       extract_loop lookup inc idx (urn :: rest) =
         extract_loop lookup inc (idx + 1) rest) := by
  constructor
  · rw [extract_posts_from_response, if_neg hel, if_neg hinc,
      extract_loop_eq_filterMap]
    have hi' : (enumFrom 1 pg.elements).get? i = some (1 + i, urnI) := by
      rw [enumFrom_get?, hi]; rfl
    have hj' : (enumFrom 1 pg.elements).get? j = some (1 + j, urnJ) := by
      rw [enumFrom_get?, hj]; rfl
    have hp' : assemble_post (post_lookup pg.included) pg.included
        ((1 + i, urnI).1) ((1 + i, urnI).2) = some p := by
      simpa [Nat.add_comm] using hp
    have hq' : assemble_post (post_lookup pg.included) pg.included
        ((1 + j, urnJ).1) ((1 + j, urnJ).2) = some q := by
      simpa [Nat.add_comm] using hq
    exact filterMap_order_preserving _ (enumFrom 1 pg.elements) i j
      (1 + i, urnI) (1 + j, urnJ) p q hij hi' hj' hp' hq'
  · intro lookup inc idx urn rest hmiss
    rw [extract_loop, assemble_post, hmiss]

/-- Witness for C1 at a concrete page: references `ua`, `ux`, `ub` where
`ux` resolves to nothing; the posts for `ua` and `ub` appear in that
order. -/
theorem c1_reference_list_order_witness :
    ∃ k m, k < m ∧
      (extract_posts_from_response c1page).get? k =
        some (build_post_info (simpleUpdate "ua") c1page.included 1) ∧
      (extract_posts_from_response c1page).get? m =
        some (build_post_info (simpleUpdate "ub") c1page.included 3) :=
  (c1_reference_list_order c1page 0 2 "ua" "ub"
    (build_post_info (simpleUpdate "ua") c1page.included 1)
    (build_post_info (simpleUpdate "ub") c1page.included 3)
    (by decide) (by decide) (by decide) (by decide) (by decide)
    (by decide) (by decide)).1

lemma pyMaxBy_spec (f : α → Nat) :
    ∀ (l : List α) (a : α),
      (∀ x ∈ a :: l, f x ≤ f (pyMaxBy f a l)) ∧
      ∃ i, (a :: l).get? i = some (pyMaxBy f a l) ∧
        ∀ j y, j < i → (a :: l).get? j = some y → f y < f (pyMaxBy f a l) := by
  intro l
  induction l with
  | nil =>
    intro a
    refine ⟨?_, 0, rfl, ?_⟩
    · intro x hx
      rw [List.mem_singleton] at hx
      exact hx ▸ Nat.le_refl _
    · intro j y hj _; omega
  | cons x t ih =>
    intro a
    by_cases hfx : f x > f a
    · have hbest : pyMaxBy f a (x :: t) = pyMaxBy f x t := by
        rw [pyMaxBy, if_pos hfx]
      obtain ⟨hle, i', hi', hlt'⟩ := ih x
      have hxle : f x ≤ f (pyMaxBy f x t) := hle x (List.mem_cons_self x t)
      rw [hbest]
      refine ⟨?_, i' + 1, hi', ?_⟩
      · intro y hy
        rcases List.mem_cons.mp hy with h | h
        · subst h; exact Nat.le_trans (Nat.le_of_lt hfx) hxle
        · exact hle y h
      · intro j y hj hy
        cases j with
        | zero =>
          simp only [List.get?_cons_zero, Option.some_inj] at hy
          subst hy
          exact Nat.lt_of_lt_of_le hfx hxle
        | succ j'' =>
          simp only [List.get?_cons_succ] at hy
          exact hlt' j'' y (by omega) hy
    · have hbest : pyMaxBy f a (x :: t) = pyMaxBy f a t := by
        rw [pyMaxBy, if_neg hfx]
      have hxa : f x ≤ f a := Nat.le_of_not_lt hfx
      obtain ⟨hle, i', hi', hlt'⟩ := ih a
      have hale : f a ≤ f (pyMaxBy f a t) := hle a (List.mem_cons_self a t)
      rw [hbest]
      constructor
      · intro y hy
        rcases List.mem_cons.mp hy with h | h
        · subst h; exact hale
        · rcases List.mem_cons.mp h with h2 | h2
          · subst h2; exact Nat.le_trans hxa hale
          · exact hle y (List.mem_cons_of_mem a h2)
      · cases i' with
        | zero =>
          simp only [List.get?_cons_zero, Option.some_inj] at hi'
          refine ⟨0, ?_, ?_⟩
          · rw [List.get?_cons_zero]
            exact congrArg some hi'
          · intro j y hj _; omega
        | succ k =>
          simp only [List.get?_cons_succ] at hi'
          have hfa : f a < f (pyMaxBy f a t) := by
            have := hlt' 0 a (by omega) rfl
            exact this
          refine ⟨k + 2, ?_, ?_⟩
          · simpa using hi'
          · intro j y hj hy
            match j, hy with
            | 0, hy =>
              simp only [List.get?_cons_zero, Option.some_inj] at hy
              exact hy ▸ hfa
            | 1, hy =>
              simp only [List.get?_cons_succ, List.get?_cons_zero,
                Option.some_inj] at hy
              exact hy ▸ Nat.lt_of_le_of_lt hxa hfa
            | (m + 2), hy =>
              simp only [List.get?_cons_succ] at hy
              exact hlt' (m + 1) y (by omega) hy

/-- C6 — For an image with a base URL and a non-empty artifact list, the
chosen artifact has the maximum width among all artifacts, is the first
artifact attaining that width (every earlier artifact is strictly
narrower, so ties go to the first-encountered artifact), and when its
path fragment is present the resolved URL is the base URL concatenated
with that fragment; `extract_image_urls` applies this to every image of
the post's image component in order. -/
theorem c6_image_best_artifact (img : PostImage) (attr : ImageAttr)
    (atail : List ImageAttr) (a : Artifact) (rest : List Artifact)
    (hattr : img.attributes = attr :: atail)
    (hroot : attr.vectorImage.rootUrl ≠ "")
    (harts : attr.vectorImage.artifacts = a :: rest) :
    (∀ x ∈ a :: rest,
      x.width ≤ (pyMaxBy (fun x => x.width) a rest).width) ∧
    (∃ i, (a :: rest).get? i = some (pyMaxBy (fun x => x.width) a rest) ∧
      ∀ j y, j < i → (a :: rest).get? j = some y →
        y.width < (pyMaxBy (fun x => x.width) a rest).width) ∧
    ((pyMaxBy (fun x => x.width) a rest).fileIdentifyingUrlPathSegment ≠ "" →
      extract_one_image img =
        some (attr.vectorImage.rootUrl ++
          (pyMaxBy (fun x => x.width) a rest).fileIdentifyingUrlPathSegment)) ∧
    (∀ item : Entity, extract_image_urls item =
      item.content.imageComponent.images.filterMap extract_one_image) := by
  obtain ⟨hle, hfirst⟩ := pyMaxBy_spec (fun x : Artifact => x.width) rest a
  refine ⟨hle, hfirst, ?_, fun _ => rfl⟩
  intro hseg
  rw [extract_one_image, hattr]
  simp only []
  rw [if_neg (by exact hroot), harts]
  simp only []
  rw [if_neg (by exact hseg)]

/-- Witness for C6: among artifacts of widths 320, 640, 720 the resolved
URL is built from the width-720 artifact. -/
theorem c6_image_best_artifact_witness :
    extract_one_image c6img = some ("base/" ++ "w720") :=
  (c6_image_best_artifact c6img c6attr [] (c6art 320 "w320")
    [c6art 640 "w640", c6art 720 "w720"] rfl (by decide) rfl).2.2.1
    (by decide)

/-- C8 — For a reference URN that resolves to an entity, a post is emitted
exactly when the entity has non-empty commentary text or a non-empty
share URL; an entity with neither is skipped while the remaining
references of the page are still processed, and an emitted post is
prepended to the page's remaining output. -/
theorem c8_emit_iff_text_or_url (lookup : String → Option Entity)
    (inc : List Entity) (idx : Nat) (urn : String) (item : Entity)
    (rest : List String) (hres : lookup urn = some item) :
    (assemble_post lookup inc idx urn = some (build_post_info item inc idx) ↔
      (item.commentary.text.text ≠ "" ∨ item.socialContent.shareUrl ≠ "")) ∧
    (item.commentary.text.text = "" ∧ item.socialContent.shareUrl = "" →
      extract_loop lookup inc idx (urn :: rest) =
        extract_loop lookup inc (idx + 1) rest) ∧
    (∀ p, assemble_post lookup inc idx urn = some p →
      extract_loop lookup inc idx (urn :: rest) =
        p :: extract_loop lookup inc (idx + 1) rest) := by
  have hnone : item.commentary.text.text = "" →
      item.socialContent.shareUrl = "" →
      assemble_post lookup inc idx urn = none := by
    intro h1 h2
    rw [assemble_post, hres]
    simp only []
    rw [if_neg]
    intro hcon
    rcases hcon with h | h
    · exact h h1
    · exact h h2
  refine ⟨?_, ?_, ?_⟩
  · constructor
    · intro heq
      by_cases hc : item.commentary.text.text ≠ "" ∨
          item.socialContent.shareUrl ≠ ""
      · exact hc
      · push_neg at hc
        rw [hnone hc.1 hc.2] at heq
        exact absurd heq (by simp)
    · intro hc
      rw [assemble_post, hres]
      simp only []
      rw [if_pos]
      exact hc
  · rintro ⟨h1, h2⟩
    rw [extract_loop, hnone h1 h2]
  · intro p hp
    rw [extract_loop, hp]

/-- Witness for C8: an entity with commentary text is emitted; the same
applied at index 1 with a one-element reference list. -/
theorem c8_emit_iff_text_or_url_witness :
    assemble_post (fun u => if u = "w8" then some (simpleUpdate "w8")
      else none) [] 1 "w8" =
      some (build_post_info (simpleUpdate "w8") [] 1) :=
  ((c8_emit_iff_text_or_url
      (fun u => if u = "w8" then some (simpleUpdate "w8") else none)
      [] 1 "w8" (simpleUpdate "w8") [] (by decide)).1).mpr
    (Or.inl (by decide))

/-- C9 — Post-identity extraction is a deterministic function of the
entity's identifier fields and of the author/timestamp/commentary
representations that feed the fallback hash: two entities agreeing on
those fields get the same identity, and when no URN route applies the
identity is exactly the stringified hash of
`author + "_" + timestamp + "_" + commentary`. -/
theorem c9_post_id_deterministic (hashFn : String → Int) (e1 e2 : Entity)
    (h1 : e1.entityUrn = e2.entityUrn)
    (h2 : e1.activityUrn = e2.activityUrn)
    (h3 : e1.updateUrn = e2.updateUrn)
    (h4 : e1.postUrn = e2.postUrn)
    (h5 : e1.author_repr = e2.author_repr)
    (h6 : e1.timestamp_repr = e2.timestamp_repr)
    (h7 : e1.commentary_repr = e2.commentary_repr) :
    extract_post_id hashFn e1 = extract_post_id hashFn e2 ∧
    (e1.entityUrn = "" →
      ¬(e1.activityUrn ≠ "" ∧ py_contains ":activity:" e1.activityUrn) →
      ¬(e1.updateUrn ≠ "" ∧ py_contains ":activity:" e1.updateUrn) →
      ¬(e1.postUrn ≠ "" ∧ py_contains ":activity:" e1.postUrn) →
      extract_post_id hashFn e1 =
        toString (hashFn (e1.author_repr ++ "_" ++ e1.timestamp_repr ++
          "_" ++ e1.commentary_repr))) := by
  constructor
  · simp only [extract_post_id, h1, h2, h3, h4, h5, h6, h7]
  · intro hu ha hup hp
    rw [extract_post_id]
    rw [if_neg (by simpa using hu), if_neg ha, if_neg hup, if_neg hp]

/-- Witness for C9: two entities that differ only in the actor name but
agree on every identity-relevant field receive the same fallback
identity. -/
theorem c9_post_id_deterministic_witness :
    extract_post_id c9hash (c9ent "alice") =
      extract_post_id c9hash (c9ent "bob") :=
  (c9_post_id_deterministic c9hash (c9ent "alice") (c9ent "bob")
    rfl rfl rfl rfl rfl rfl rfl).1

lemma stream_step_eq (acc : String × String × String) (s : VidStream) :
    stream_step acc s =
      if stream_url s = "" then acc
      else
        (if s.width = 640 ∨ s.height = 640 then stream_url s else acc.1,
         if s.width = 720 ∨ s.height = 720 then stream_url s else acc.2.1,
         if acc.2.2 = "" then stream_url s else acc.2.2) := by
  rcases hl : s.streamingLocations with _ | ⟨loc, locs⟩
  · simp [stream_step, stream_url, hl]
  · by_cases hu : loc.url = "" <;>
      simp [stream_step, stream_url, hl, hu]

lemma foldl_stream_fst_const : ∀ (L : List VidStream)
    (acc : String × String × String),
    (∀ s ∈ L, ¬(stream_url s ≠ "" ∧ is640 s)) →
    (L.foldl stream_step acc).1 = acc.1 := by
  intro L
  induction L with
  | nil => intro acc _; rfl
  | cons s t ih =>
    intro acc hall
    rw [List.foldl_cons, stream_step_eq]
    by_cases hu : stream_url s = ""
    · rw [if_pos hu]
      exact ih acc (fun x hx => hall x (List.mem_cons_of_mem s hx))
    · rw [if_neg hu]
      have h640 : ¬ is640 s := fun h =>
        hall s (List.mem_cons_self s t) ⟨hu, h⟩
      rw [ih _ (fun x hx => hall x (List.mem_cons_of_mem s hx))]
      simp [is640] at h640
      simp [h640.1, h640.2]

lemma foldl_stream_snd_const : ∀ (L : List VidStream)
    (acc : String × String × String),
    (∀ s ∈ L, ¬(stream_url s ≠ "" ∧ is720 s)) →
    (L.foldl stream_step acc).2.1 = acc.2.1 := by
  intro L
  induction L with
  | nil => intro acc _; rfl
  | cons s t ih =>
    intro acc hall
    rw [List.foldl_cons, stream_step_eq]
    by_cases hu : stream_url s = ""
    · rw [if_pos hu]
      exact ih acc (fun x hx => hall x (List.mem_cons_of_mem s hx))
    · rw [if_neg hu]
      have h720 : ¬ is720 s := fun h =>
        hall s (List.mem_cons_self s t) ⟨hu, h⟩
      rw [ih _ (fun x hx => hall x (List.mem_cons_of_mem s hx))]
      simp [is720] at h720
      simp [h720.1, h720.2]

lemma foldl_stream_fst_some : ∀ (L : List VidStream)
    (acc : String × String × String),
    (∃ s ∈ L, stream_url s ≠ "" ∧ is640 s) →
    ∃ s ∈ L, (stream_url s ≠ "" ∧ is640 s) ∧
      (L.foldl stream_step acc).1 = stream_url s := by
  intro L
  induction L with
  | nil => rintro acc ⟨s, hs, _⟩; simp at hs
  | cons s t ih =>
    intro acc hex
    by_cases hext : ∃ x ∈ t, stream_url x ≠ "" ∧ is640 x
    · obtain ⟨x, hx, hok, heq⟩ := ih (stream_step acc s) hext
      exact ⟨x, List.mem_cons_of_mem s hx, hok, heq⟩
    · obtain ⟨y, hy, hok⟩ := hex
      have hys : y = s := by
        rcases List.mem_cons.mp hy with h | h
        · exact h
        · exact absurd (⟨y, h, hok⟩ : ∃ x ∈ t, stream_url x ≠ "" ∧ is640 x)
            hext
      subst hys
      refine ⟨y, List.mem_cons_self y t, hok, ?_⟩
      rw [List.foldl_cons]
      have h2 : y.width = 640 ∨ y.height = 640 := hok.2
      have hstep : (stream_step acc y).1 = stream_url y := by
        rw [stream_step_eq, if_neg hok.1]
        simp [h2]
      have hallt : ∀ x ∈ t, ¬(stream_url x ≠ "" ∧ is640 x) := by
        intro x hx hcon
        exact hext ⟨x, hx, hcon⟩
      rw [foldl_stream_fst_const t _ hallt, hstep]

lemma foldl_stream_snd_some : ∀ (L : List VidStream)
    (acc : String × String × String),
    (∃ s ∈ L, stream_url s ≠ "" ∧ is720 s) →
    ∃ s ∈ L, (stream_url s ≠ "" ∧ is720 s) ∧
      (L.foldl stream_step acc).2.1 = stream_url s := by
  intro L
  induction L with
  | nil => rintro acc ⟨s, hs, _⟩; simp at hs
  | cons s t ih =>
    intro acc hex
    by_cases hext : ∃ x ∈ t, stream_url x ≠ "" ∧ is720 x
    · obtain ⟨x, hx, hok, heq⟩ := ih (stream_step acc s) hext
      exact ⟨x, List.mem_cons_of_mem s hx, hok, heq⟩
    · obtain ⟨y, hy, hok⟩ := hex
      have hys : y = s := by
        rcases List.mem_cons.mp hy with h | h
        · exact h
        · exact absurd (⟨y, h, hok⟩ : ∃ x ∈ t, stream_url x ≠ "" ∧ is720 x)
            hext
      subst hys
      refine ⟨y, List.mem_cons_self y t, hok, ?_⟩
      rw [List.foldl_cons]
      have h2 : y.width = 720 ∨ y.height = 720 := hok.2
      have hstep : (stream_step acc y).2.1 = stream_url y := by
        rw [stream_step_eq, if_neg hok.1]
        simp [h2]
      have hallt : ∀ x ∈ t, ¬(stream_url x ≠ "" ∧ is720 x) := by
        intro x hx hcon
        exact hext ⟨x, hx, hcon⟩
      rw [foldl_stream_snd_const t _ hallt, hstep]

lemma foldl_stream_fb_keep : ∀ (L : List VidStream)
    (acc : String × String × String), acc.2.2 ≠ "" →
    (L.foldl stream_step acc).2.2 = acc.2.2 := by
  intro L
  induction L with
  | nil => intro acc _; rfl
  | cons s t ih =>
    intro acc hfb
    rw [List.foldl_cons, stream_step_eq]
    by_cases hu : stream_url s = ""
    · rw [if_pos hu]; exact ih acc hfb
    · rw [if_neg hu]
      rw [ih _ (by simpa [if_neg hfb] using hfb)]
      simp [if_neg hfb]

lemma foldl_stream_fb_first : ∀ (L : List VidStream)
    (acc : String × String × String), acc.2.2 = "" →
    (L.foldl stream_step acc).2.2 = first_valid_url L := by
  intro L
  induction L with
  | nil => intro acc h; simpa [first_valid_url]
  | cons s t ih =>
    intro acc hfb
    rw [List.foldl_cons, stream_step_eq]
    by_cases hu : stream_url s = ""
    · rw [if_pos hu, ih acc hfb]
      have : (stream_url s != "") = false := by simp [hu]
      simp [first_valid_url, List.find?, this]
    · rw [if_neg hu]
      have hset : (if s.width = 640 ∨ s.height = 640 then stream_url s
          else acc.1,
        if s.width = 720 ∨ s.height = 720 then stream_url s else acc.2.1,
        if acc.2.2 = "" then stream_url s else acc.2.2).2.2 =
          stream_url s := by
        simp [hfb]
      rw [foldl_stream_fb_keep t _ (by rw [hset]; exact hu), hset]
      have : (stream_url s != "") = true := by simp [hu]
      simp [first_valid_url, List.find?, this]

lemma choose_stream_url_cons (s : VidStream) (rest : List VidStream) :
    choose_stream_url true (s :: rest) =
      pyOr ((s :: rest).foldl stream_step ("", "", "")).1
        (pyOr ((s :: rest).foldl stream_step ("", "", "")).2.1
          ((s :: rest).foldl stream_step ("", "", "")).2.2) := rfl

lemma extract_video_url_some (item : Entity) (included : List Entity)
    (p : Bool) (vm : Entity) (href : video_ref item ≠ "")
    (hfind : included.find? (fun e => e.entityUrn == video_ref item) =
      some vm) :
    extract_video_url item included p =
      choose_stream_url p vm.progressiveStreams := by
  unfold extract_video_url
  rw [if_neg href, hfind]

/-- C7 — Video resolution with preferred value 640: when the metadata
entity is missing from the entity list, or its stream list is empty, the
result is the empty string (no video asset, no error); otherwise the
result is the URL of a stream matching 640 in width or height when one
with a URL exists, else of a stream matching 720 when one with a URL
exists, else the first stream's URL among streams that carry any URL. -/
theorem c7_video_preference_order (item : Entity) (included : List Entity)
    (href : video_ref item ≠ "") :
    (included.find? (fun e => e.entityUrn == video_ref item) = none →
      extract_video_url item included true = "") ∧
    (∀ vm, included.find? (fun e => e.entityUrn == video_ref item) =
        some vm → vm.progressiveStreams = [] →
      extract_video_url item included true = "") ∧
    (∀ vm, included.find? (fun e => e.entityUrn == video_ref item) =
        some vm →
      (∃ s ∈ vm.progressiveStreams, stream_url s ≠ "" ∧ is640 s) →
      ∃ s ∈ vm.progressiveStreams, (stream_url s ≠ "" ∧ is640 s) ∧
        extract_video_url item included true = stream_url s) ∧
    (∀ vm, included.find? (fun e => e.entityUrn == video_ref item) =
        some vm →
      (∀ s ∈ vm.progressiveStreams, ¬(stream_url s ≠ "" ∧ is640 s)) →
      (∃ s ∈ vm.progressiveStreams, stream_url s ≠ "" ∧ is720 s) →
      ∃ s ∈ vm.progressiveStreams, (stream_url s ≠ "" ∧ is720 s) ∧
        extract_video_url item included true = stream_url s) ∧
    (∀ vm, included.find? (fun e => e.entityUrn == video_ref item) =
        some vm →
      (∀ s ∈ vm.progressiveStreams, ¬(stream_url s ≠ "" ∧ is640 s)) →
      (∀ s ∈ vm.progressiveStreams, ¬(stream_url s ≠ "" ∧ is720 s)) →
      extract_video_url item included true =
        first_valid_url vm.progressiveStreams) := by
  refine ⟨?_, ?_, ?_, ?_, ?_⟩
  · intro hnone
    unfold extract_video_url
    rw [if_neg href, hnone]
  · intro vm hfind hemp
    rw [extract_video_url_some item included true vm href hfind, hemp]
    rfl
  · intro vm hfind hex
    rw [extract_video_url_some item included true vm href hfind]
    rcases hL : vm.progressiveStreams with _ | ⟨s, rest⟩
    · rw [hL] at hex
      obtain ⟨x, hx, _⟩ := hex
      simp at hx
    · rw [hL] at hex
      obtain ⟨x, hx, hokx, heq⟩ :=
        foldl_stream_fst_some (s :: rest) ("", "", "") hex
      refine ⟨x, hL ▸ hx, hokx, ?_⟩
      rw [choose_stream_url_cons, heq, pyOr, if_neg hokx.1]
  · intro vm hfind hall hex
    rw [extract_video_url_some item included true vm href hfind]
    rcases hL : vm.progressiveStreams with _ | ⟨s, rest⟩
    · rw [hL] at hex
      obtain ⟨x, hx, _⟩ := hex
      simp at hx
    · rw [hL] at hex hall
      obtain ⟨x, hx, hokx, heq⟩ :=
        foldl_stream_snd_some (s :: rest) ("", "", "") hex
      have h1 : ((s :: rest).foldl stream_step ("", "", "")).1 = "" :=
        foldl_stream_fst_const (s :: rest) ("", "", "") hall
      refine ⟨x, hL ▸ hx, hokx, ?_⟩
      rw [choose_stream_url_cons, heq, h1, pyOr, if_pos rfl, pyOr,
        if_neg hokx.1]
  · intro vm hfind hall640 hall720
    rw [extract_video_url_some item included true vm href hfind]
    rcases hL : vm.progressiveStreams with _ | ⟨s, rest⟩
    · rfl
    · rw [hL] at hall640 hall720
      have h1 : ((s :: rest).foldl stream_step ("", "", "")).1 = "" :=
        foldl_stream_fst_const (s :: rest) ("", "", "") hall640
      have h2 : ((s :: rest).foldl stream_step ("", "", "")).2.1 = "" :=
        foldl_stream_snd_const (s :: rest) ("", "", "") hall720
      have h3 : ((s :: rest).foldl stream_step ("", "", "")).2.2 =
          first_valid_url (s :: rest) :=
        foldl_stream_fb_first (s :: rest) ("", "", "") rfl
      rw [choose_stream_url_cons, h1, h2, h3, pyOr, if_pos rfl, pyOr,
        if_pos rfl]

/-- Witness for C7: with streams of widths 360, 640, 720 and preferred
value 640, the resolved URL comes from a 640-matching stream. -/
theorem c7_video_preference_order_witness :
    ∃ s ∈ (c7vm [c7stream 360 202 "u360", c7stream 640 360 "u640",
        c7stream 720 404 "u720"]).progressiveStreams,
      (stream_url s ≠ "" ∧ is640 s) ∧
      extract_video_url c7item
        [c7vm [c7stream 360 202 "u360", c7stream 640 360 "u640",
          c7stream 720 404 "u720"]] true = stream_url s :=
  ((c7_video_preference_order c7item
      [c7vm [c7stream 360 202 "u360", c7stream 640 360 "u640",
        c7stream 720 404 "u720"]] (by decide)).2.2.1
    (c7vm [c7stream 360 202 "u360", c7stream 640 360 "u640",
      c7stream 720 404 "u720"])
    (by decide)
    ⟨c7stream 640 360 "u640", by decide, by decide, by decide⟩)


lemma parse_single_mem (hashFn : String → Int)
    (findText : Entity → Option String) (seen : List String) (e : Entity)
    (h : extract_post_id hashFn e ∈ seen) :
    parse_single_post_enhanced hashFn findText seen e = (none, seen) := by
  unfold parse_single_post_enhanced
  rw [if_pos h]

lemma parse_single_not_mem (hashFn : String → Int)
    (findText : Entity → Option String) (seen : List String) (e : Entity)
    (h : extract_post_id hashFn e ∉ seen) :
    parse_single_post_enhanced hashFn findText seen e =
      (if enhanced_post_text findText e ≠ "" ∧
          (enhanced_post_text findText e).trim.length > 10 then
        some (build_epost hashFn findText e) else none,
       extract_post_id hashFn e :: seen) := by
  unfold parse_single_post_enhanced
  rw [if_neg h]
  split_ifs <;> rfl

lemma parse_posts_cons_none (hashFn : String → Int)
    (findText : Entity → Option String) (seen sn : List String)
    (e : Entity) (rest : List Entity)
    (h : parse_single_post_enhanced hashFn findText seen e = (none, sn)) :
    parse_posts_from_list hashFn findText seen (e :: rest) =
      parse_posts_from_list hashFn findText sn rest := by
  simp only [parse_posts_from_list, h]

lemma parse_posts_cons_some_fst (hashFn : String → Int)
    (findText : Entity → Option String) (seen sn : List String)
    (e : Entity) (p : EPost) (rest : List Entity)
    (h : parse_single_post_enhanced hashFn findText seen e = (some p, sn)) :
    (parse_posts_from_list hashFn findText seen (e :: rest)).1 =
      p :: (parse_posts_from_list hashFn findText sn rest).1 := by
  simp only [parse_posts_from_list, h]

lemma parse_posts_cons_some_snd (hashFn : String → Int)
    (findText : Entity → Option String) (seen sn : List String)
    (e : Entity) (p : EPost) (rest : List Entity)
    (h : parse_single_post_enhanced hashFn findText seen e = (some p, sn)) :
    (parse_posts_from_list hashFn findText seen (e :: rest)).2 =
      (parse_posts_from_list hashFn findText sn rest).2 := by
  simp only [parse_posts_from_list, h]

lemma parse_posts_seen_mono (hashFn : String → Int)
    (findText : Entity → Option String) :
    ∀ (es : List Entity) (seen : List String) (x : String), x ∈ seen →
      x ∈ (parse_posts_from_list hashFn findText seen es).2 := by
  intro es
  induction es with
  | nil => intro seen x hx; exact hx
  | cons e rest ih =>
    intro seen x hx
    by_cases h : extract_post_id hashFn e ∈ seen
    · rw [parse_posts_cons_none hashFn findText seen seen e rest
        (parse_single_mem hashFn findText seen e h)]
      exact ih seen x hx
    · have hps := parse_single_not_mem hashFn findText seen e h
      by_cases hc : enhanced_post_text findText e ≠ "" ∧
          (enhanced_post_text findText e).trim.length > 10
      · rw [if_pos hc] at hps
        rw [parse_posts_cons_some_snd hashFn findText seen _ e _ rest hps]
        exact ih _ x (List.mem_cons_of_mem _ hx)
      · rw [if_neg hc] at hps
        rw [parse_posts_cons_none hashFn findText seen _ e rest hps]
        exact ih _ x (List.mem_cons_of_mem _ hx)

lemma parse_posts_marks (hashFn : String → Int)
    (findText : Entity → Option String) :
    ∀ (es : List Entity) (seen : List String) (e : Entity), e ∈ es →
      extract_post_id hashFn e ∈
        (parse_posts_from_list hashFn findText seen es).2 := by
  intro es
  induction es with
  | nil => intro seen e he; simp at he
  | cons x rest ih =>
    intro seen e he
    rcases List.mem_cons.mp he with hex | her
    · subst hex
      by_cases h : extract_post_id hashFn e ∈ seen
      · rw [parse_posts_cons_none hashFn findText seen seen e rest
          (parse_single_mem hashFn findText seen e h)]
        exact parse_posts_seen_mono hashFn findText rest seen _ h
      · have hps := parse_single_not_mem hashFn findText seen e h
        by_cases hc : enhanced_post_text findText e ≠ "" ∧
            (enhanced_post_text findText e).trim.length > 10
        · rw [if_pos hc] at hps
          rw [parse_posts_cons_some_snd hashFn findText seen _ e _ rest hps]
          exact parse_posts_seen_mono hashFn findText rest _ _
            (List.mem_cons_self _ _)
        · rw [if_neg hc] at hps
          rw [parse_posts_cons_none hashFn findText seen _ e rest hps]
          exact parse_posts_seen_mono hashFn findText rest _ _
            (List.mem_cons_self _ _)
    · by_cases h : extract_post_id hashFn x ∈ seen
      · rw [parse_posts_cons_none hashFn findText seen seen x rest
          (parse_single_mem hashFn findText seen x h)]
        exact ih seen e her
      · have hps := parse_single_not_mem hashFn findText seen x h
        by_cases hc : enhanced_post_text findText x ≠ "" ∧
            (enhanced_post_text findText x).trim.length > 10
        · rw [if_pos hc] at hps
          rw [parse_posts_cons_some_snd hashFn findText seen _ x _ rest hps]
          exact ih _ e her
        · rw [if_neg hc] at hps
          rw [parse_posts_cons_none hashFn findText seen _ x rest hps]
          exact ih _ e her

lemma parse_posts_all_seen (hashFn : String → Int)
    (findText : Entity → Option String) :
    ∀ (es : List Entity) (seen : List String),
      (∀ e ∈ es, extract_post_id hashFn e ∈ seen) →
      parse_posts_from_list hashFn findText seen es = ([], seen) := by
  intro es
  induction es with
  | nil => intro seen _; rfl
  | cons x rest ih =>
    intro seen hall
    rw [parse_posts_cons_none hashFn findText seen seen x rest
      (parse_single_mem hashFn findText seen x
        (hall x (List.mem_cons_self x rest)))]
    exact ih seen (fun e he => hall e (List.mem_cons_of_mem x he))

lemma parse_posts_ids (hashFn : String → Int)
    (findText : Entity → Option String) :
    ∀ (es : List Entity) (seen : List String),
      ((parse_posts_from_list hashFn findText seen es).1.map
        EPost.post_id).Nodup ∧
      ∀ p ∈ (parse_posts_from_list hashFn findText seen es).1,
        p.post_id ∉ seen := by
  intro es
  induction es with
  | nil =>
    intro seen
    refine ⟨List.nodup_nil, ?_⟩
    intro p hp
    exact absurd hp (List.not_mem_nil p)
  | cons x rest ih =>
    intro seen
    by_cases h : extract_post_id hashFn x ∈ seen
    · rw [parse_posts_cons_none hashFn findText seen seen x rest
        (parse_single_mem hashFn findText seen x h)]
      exact ih seen
    · have hps := parse_single_not_mem hashFn findText seen x h
      by_cases hc : enhanced_post_text findText x ≠ "" ∧
          (enhanced_post_text findText x).trim.length > 10
      · rw [if_pos hc] at hps
        obtain ⟨hnd, hnew⟩ := ih (extract_post_id hashFn x :: seen)
        constructor
        · rw [parse_posts_cons_some_fst hashFn findText seen _ x _ rest hps,
            List.map_cons, List.nodup_cons]
          refine ⟨?_, hnd⟩
          intro hmem
          rw [List.mem_map] at hmem
          obtain ⟨q, hq, hqid⟩ := hmem
          have hqpid : q.post_id = extract_post_id hashFn x := by
            rw [hqid]; rfl
          exact hnew q hq (hqpid ▸ List.mem_cons_self _ _)
        · intro q hq
          rw [parse_posts_cons_some_fst hashFn findText seen _ x _ rest hps]
            at hq
          rcases List.mem_cons.mp hq with hqp | hqr
          · subst hqp
            exact h
          · exact fun hmem =>
              hnew q hqr (List.mem_cons_of_mem _ hmem)
      · rw [if_neg hc] at hps
        rw [parse_posts_cons_none hashFn findText seen _ x rest hps]
        obtain ⟨hnd, hnew⟩ := ih (extract_post_id hashFn x :: seen)
        exact ⟨hnd, fun p hp =>
          fun hmem => hnew p hp (List.mem_cons_of_mem _ hmem)⟩

/-- C2 — Within one aggregation run of the enhanced parser, dedup by
`seen_post_ids` is idempotent and monotonic: feeding the identical entity
page a second time (continuing from the state the first pass left) emits
zero additional posts, and the identities of the posts emitted by any
pass are pairwise distinct — an emitted identity is never emitted again. -/
theorem c2_dedup_idempotent_monotonic (hashFn : String → Int)
    (findText : Entity → Option String) (seen : List String)
    (page : List Entity) :
    (parse_posts_from_list hashFn findText
        (parse_posts_from_list hashFn findText seen page).2 page).1 = [] ∧
    ((parse_posts_from_list hashFn findText seen page).1.map
        EPost.post_id).Nodup := by
  constructor
  · have hall : ∀ e ∈ page, extract_post_id hashFn e ∈
        (parse_posts_from_list hashFn findText seen page).2 :=
      fun e he => parse_posts_marks hashFn findText page seen e he
    rw [parse_posts_all_seen hashFn findText page _ hall]
  · exact (parse_posts_ids hashFn findText page seen).1

lemma run_scrape_eq (fetch : Nat → Nat → Option String → Option RawPage)
    (ranges : List (Nat × Nat)) (h : ranges ≠ []) :
    run_scrape fetch ranges =
      { success := true
        pagesCompleted := (fetch_loop fetch ranges 1 none).length
        posts := process_posts_from_files (fetch_loop fetch ranges 1 none)
        failureReason := none } := by
  unfold run_scrape
  rw [if_neg h]

lemma fetch_loop_cons_first (fetch : Nat → Nat → Option String → Option RawPage)
    (s e : Nat) (rest : List (Nat × Nat)) (pg : RawPage)
    (hf : fetch s (e - s) none = some pg) :
    fetch_loop fetch ((s, e) :: rest) 1 none =
      (if extract_pagination_token pg = none ∧ rest ≠ [] then [(s, pg)]
       else (s, pg) :: fetch_loop fetch rest 2 (extract_pagination_token pg)) := by
  simp only [fetch_loop]
  rw [if_neg (by simp), if_true, hf]

lemma fetch_loop_cons_later_fail
    (fetch : Nat → Nat → Option String → Option RawPage)
    (s e : Nat) (rest : List (Nat × Nat)) (tok : String)
    (hf : fetch s (e - s) (some tok) = none) :
    fetch_loop fetch ((s, e) :: rest) 2 (some tok) = [] := by
  simp only [fetch_loop]
  rw [if_neg (by simp), if_neg (by omega), hf]

/-- C4 — When the first page of a multi-page run carries no continuation
token, the run stops fetching, processes the page already fetched, and
terminates successfully: the success flag is `true`, one page completed,
and the posts are those of page 1. -/
theorem c4_token_absence_partial_success
    (fetch : Nat → Nat → Option String → Option RawPage)
    (s1 e1 s2 e2 : Nat) (rest : List (Nat × Nat)) (pg1 : RawPage)
    (hfetch : fetch s1 (e1 - s1) none = some pg1)
    (htok : pg1.paginationToken = "") :
    run_scrape fetch ((s1, e1) :: (s2, e2) :: rest) =
      { success := true, pagesCompleted := 1
        posts := process_posts_from_files [(s1, pg1)]
        failureReason := none } := by
  have htok' : extract_pagination_token pg1 = none := by
    rw [extract_pagination_token, if_pos htok]
  have hloop : fetch_loop fetch ((s1, e1) :: (s2, e2) :: rest) 1 none =
      [(s1, pg1)] := by
    rw [fetch_loop_cons_first fetch s1 e1 _ pg1 hfetch,
      if_pos ⟨htok', by simp⟩]
  rw [run_scrape_eq fetch _ (by simp), hloop]
  rfl

/-- Witness for C4 at a concrete fetch collaborator: a token-less first
page of a two-range run gives a successful one-page outcome. -/
theorem c4_token_absence_partial_success_witness :
    run_scrape c4fetch [(0, 20), (20, 40)] =
      { success := true, pagesCompleted := 1
        posts := process_posts_from_files [(0, c4page1)]
        failureReason := none } :=
  c4_token_absence_partial_success c4fetch 0 20 20 40 [] c4page1
    (by decide) (by decide)

/-- Counterexample for C3 as stated: with a collaborator that fails on the
second of three ranges, `run_scrape` still reports success (the returned
flag is `true`, not `false`), with one page completed and the posts of
page 1 retained. -/
theorem c3_claim_counterexample :
    (run_scrape c3fetch c3ranges).success = true ∧
    (run_scrape c3fetch c3ranges).pagesCompleted = 1 ∧
    (run_scrape c3fetch c3ranges).posts =
      process_posts_from_files [(0, c3page1)] := by
  decide

/-- C3 (amended) — When the fetch of page 2 of a 3-page run fails, the run
halts immediately and still returns the posts collected from page 1, but
it reports a successful outcome (success flag `true`, no failure reason);
the fetch failure is not surfaced to the caller. -/
theorem c3_fetch_failure_keeps_posts_reports_success
    (fetch : Nat → Nat → Option String → Option RawPage)
    (s1 e1 s2 e2 : Nat) (rest : List (Nat × Nat)) (pg1 : RawPage)
    (hfetch1 : fetch s1 (e1 - s1) none = some pg1)
    (htok : pg1.paginationToken ≠ "")
    (hfetch2 : fetch s2 (e2 - s2) (some pg1.paginationToken) = none) :
    run_scrape fetch ((s1, e1) :: (s2, e2) :: rest) =
      { success := true, pagesCompleted := 1
        posts := process_posts_from_files [(s1, pg1)]
        failureReason := none } := by
  have htok' : extract_pagination_token pg1 = some pg1.paginationToken := by
    rw [extract_pagination_token, if_neg htok]
  have hloop : fetch_loop fetch ((s1, e1) :: (s2, e2) :: rest) 1 none =
      [(s1, pg1)] := by
    rw [fetch_loop_cons_first fetch s1 e1 _ pg1 hfetch1,
      if_neg (by simp [htok']), htok',
      fetch_loop_cons_later_fail fetch s2 e2 rest _ hfetch2]
  rw [run_scrape_eq fetch _ (by simp), hloop]
  rfl

/-- Witness for the amended C3 at the concrete failing collaborator. -/
theorem c3_fetch_failure_keeps_posts_reports_success_witness :
    run_scrape c3fetch c3ranges =
      { success := true, pagesCompleted := 1
        posts := process_posts_from_files [(0, c3page1)]
        failureReason := none } :=
  c3_fetch_failure_keeps_posts_reports_success c3fetch 0 20 20 40
    [(40, 60)] c3page1 (by decide) (by decide) (by decide)

/-- Counterexample for C5 as stated: on a page whose first reference
resolves to an entity with neither text nor URL (a skip), the single
emitted post has global number `pageOffset + 2`, not `pageOffset + 1` as
its within-page emission rank would demand — skipped references still
consume sequence numbers. -/
theorem c5_claim_counterexample :
    ∃ k p, (process_posts_from_files [(0, c5page)]).get? k = some p ∧
      p.post_order ≠ 0 + (k + 1) := by
  refine ⟨0, renumber 0 (build_post_info (simpleUpdate "s2")
    c5page.included 2), ?_, ?_⟩
  · decide
  · decide

lemma mem_enumFrom : ∀ (l : List α) (n : Nat) (pr : Nat × α),
    pr ∈ enumFrom n l → ∃ j, l.get? j = some pr.2 ∧ pr.1 = n + j := by
  intro l
  induction l with
  | nil => intro n pr h; simp [enumFrom] at h
  | cons a t ih =>
    intro n pr h
    rw [enumFrom] at h
    rcases List.mem_cons.mp h with heq | hmem
    · subst heq
      exact ⟨0, rfl, rfl⟩
    · obtain ⟨j, hj, hn⟩ := ih (n + 1) pr hmem
      refine ⟨j + 1, by simpa using hj, by omega⟩

lemma assemble_post_order (lookup : String → Option Entity)
    (inc : List Entity) (idx : Nat) (urn : String) (q : PostInfo)
    (h : assemble_post lookup inc idx urn = some q) : q.post_order = idx := by
  unfold assemble_post at h
  rcases hl : lookup urn with _ | item
  · rw [hl] at h; simp at h
  · rw [hl] at h
    simp only [] at h
    split_ifs at h with hc
    exact Option.some_inj.mp h ▸ rfl

/-- C5 (amended) — Each emitted post's global sequence number equals the
page's starting offset plus the 1-based position of the post's reference
in the page's reference list; skipped references still consume positions,
so gaps can occur. In particular, for ranges `[0,20), [20,40), [40,60)`
where each page's 20 references all emit (per-page numbers exactly
`1..20`), the emitted global numbers are exactly `1..60` with no gaps or
repeats. -/
theorem c5_global_numbering_amended :
    (∀ (s : Nat) (pg : RawPage) (p : PostInfo),
      p ∈ (extract_posts_from_response pg).map (renumber s) →
      ∃ i urn q, pg.elements.get? i = some urn ∧
        assemble_post (post_lookup pg.included) pg.included (i + 1) urn =
          some q ∧ p = renumber s q ∧ p.post_order = s + (i + 1)) ∧
    (∀ a b c : RawPage,
      (extract_posts_from_response a).map PostInfo.post_order =
        List.range' 1 20 →
      (extract_posts_from_response b).map PostInfo.post_order =
        List.range' 1 20 →
      (extract_posts_from_response c).map PostInfo.post_order =
        List.range' 1 20 →
      (process_posts_from_files [(0, a), (20, b), (40, c)]).map
        PostInfo.post_order = List.range' 1 60) := by
  constructor
  · intro s pg p hp
    rw [List.mem_map] at hp
    obtain ⟨q, hq, hpq⟩ := hp
    rw [extract_posts_from_response] at hq
    by_cases hel : pg.elements = []
    · rw [if_pos hel] at hq; simp at hq
    by_cases hinc : pg.included = []
    · rw [if_neg hel, if_pos hinc] at hq; simp at hq
    rw [if_neg hel, if_neg hinc, extract_loop_eq_filterMap,
      List.mem_filterMap] at hq
    obtain ⟨pr, hpr, hasm⟩ := hq
    obtain ⟨j, hj, hn⟩ := mem_enumFrom pg.elements 1 pr hpr
    refine ⟨j, pr.2, q, hj, ?_, hpq.symm, ?_⟩
    · have : pr.1 = j + 1 := by omega
      rw [← this]
      exact hasm
    · have hqo : q.post_order = pr.1 :=
        assemble_post_order _ _ _ _ q hasm
      rw [← hpq]
      show (renumber s q).post_order = s + (j + 1)
      rw [renumber]
      simp only []
      omega
  · intro a b c h1 h2 h3
    have hcomp : ∀ (s : Nat) (l : List PostInfo),
        (l.map (renumber s)).map PostInfo.post_order =
          (l.map PostInfo.post_order).map (fun n => s + n) := by
      intro s l
      rw [List.map_map, List.map_map]
      rfl
    simp only [process_posts_from_files, List.map_append, hcomp,
      h1, h2, h3]
    decide

/-- Witness for the amended C5: three copies of a page on which all 20
references emit give global numbers exactly 1..60. -/
theorem c5_global_numbering_amended_witness :
    (process_posts_from_files [(0, c5goodpage), (20, c5goodpage),
      (40, c5goodpage)]).map PostInfo.post_order = List.range' 1 60 :=
  c5_global_numbering_amended.2 c5goodpage c5goodpage c5goodpage
    (by decide) (by decide) (by decide)
